import Mathlib

/-!
Verification of the garmin-to-sheets data sync utility.

Shallow embedding of the three source files:
  src/config.py        - the GarminMetrics record schema, the published header
                         list and the header-to-attribute lookup table
  src/sheets_client.py - the spreadsheet reconciler (setup_sheet, update_metrics)
  src/main.py          - the orchestrator fetch loop, the CSV sink and the CLI /
                         interactive entry points

Modelling conventions:
  * Python floats are modelled as rationals; round(x, 2) is modelled as exact
    half-even rounding at two decimal places, which agrees with the float
    behaviour on the values the spec mentions.
  * The remote spreadsheet is modelled as a list of rows of cell values; a read
    of the sheet returns exactly what was written (the remote service is
    assumed to store literal values).
  * Remote write operations are recorded as an explicit list of WriteCall
    values, so that theorems can speak about which calls are issued.
  * A failure of the date-column read is modelled by the readOk flag of
    update_metrics; the Python code catches HttpError there.
-/

/-- A calendar date as carried by a Python datetime.date object
(year, month, day). -/
structure PyDate where
  year : Nat
  month : Nat
  day : Nat
deriving DecidableEq

/-- The decimal digit character for n mod 10. -/
def digitChar (n : Nat) : Char := Char.ofNat (48 + n % 10)

/-- Two-digit zero-padded decimal rendering, as printf %02d for 0-99. -/
def pad2 (n : Nat) : List Char := [digitChar (n / 10), digitChar n]

/-- Four-digit zero-padded decimal rendering, as printf %04d for 0-9999. -/
def pad4 (n : Nat) : List Char :=
  [digitChar (n / 1000), digitChar (n / 100), digitChar (n / 10), digitChar n]

/-- Python date.isoformat(): the YYYY-MM-DD rendering of a date. -/
def isoformat (d : PyDate) : String :=
  String.mk (pad4 d.year ++ '-' :: pad2 d.month ++ '-' :: pad2 d.day)

/-- The runtime representation of the GarminMetrics.date field.  The dataclass
annotates the field as a datetime.date, but line 91 of sheets_client.py
explicitly tests isinstance(metric.date, date) and falls back to using the
value as-is, so the embedding keeps both representations. -/
inductive DateRep where
  | obj (d : PyDate)
  | strRep (s : String)
deriving DecidableEq

/-- True when the date field holds an actual date object, as the dataclass
annotation in config.py declares. -/
def isDateObj : DateRep → Bool
  | DateRep.obj _ => true
  | DateRep.strRep _ => false

/-- A Python value as it can appear in a metrics field or a sheet cell:
None, a string, an int, a float (modelled as a rational), or a date. -/
inductive PyVal where
  | pnone
  | pstr (s : String)
  | pint (n : Int)
  | pfloat (q : Rat)
  | pdate (d : PyDate)
deriving DecidableEq

/-- The GarminMetrics dataclass of src/config.py: a date key plus the
optional daily metric fields, each defaulting to None. -/
structure GarminMetrics where
  date : DateRep
  sleep_score : Option Rat := none
  sleep_length : Option Rat := none
  weight : Option Rat := none
  body_fat : Option Rat := none
  blood_pressure_systolic : Option Int := none
  blood_pressure_diastolic : Option Int := none
  active_calories : Option Int := none
  resting_calories : Option Int := none
  resting_heart_rate : Option Int := none
  average_stress : Option Int := none
  training_status : Option String := none
  vo2max_running : Option Rat := none
  intensity_minutes : Option Int := none
  all_activity_count : Option Int := none
  running_activity_count : Option Int := none
  running_distance : Option Rat := none
  strength_activity_count : Option Int := none
  strength_duration : Option Rat := none
  cardio_activity_count : Option Int := none
  cardio_duration : Option Rat := none
  overnight_hrv : Option Int := none
  hrv_status : Option String := none
  steps : Option Int := none
deriving DecidableEq

/-- The published header list HEADERS of src/config.py, in its fixed order. -/
def HEADERS : List String :=
  [("Day/Date"), ("Sleep Score"), ("Sleep Length"), ("HRV (ms)"), ("HRV Status"),
   ("Weight (kg)"), ("Body Fat %"), ("Blood Pressure Systolic"), ("Blood Pressure Diastolic"),
   ("Active Calories"), ("Resting Calories"), ("Resting Heart Rate"), ("Average Stress"),
   ("Training Status"), ("VO2 Max Running"), ("Intensity Minutes"),
   ("All Activity Count"), ("Running Activity Count"), ("Running Distance (km)"),
   ("Strength Activity Count"), ("Strength Duration"), ("Cardio Activity Count"),
   ("Cardio Duration"), ("Steps")]

/-- The HEADER_TO_ATTRIBUTE_MAP lookup table of src/config.py. -/
def HEADER_TO_ATTRIBUTE_MAP : List (String × String) :=
  [(("Day/Date"), ("date")),
   (("Sleep Score"), ("sleep_score")),
   (("Sleep Length"), ("sleep_length")),
   (("Weight (kg)"), ("weight")),
   (("Body Fat %"), ("body_fat")),
   (("Blood Pressure Systolic"), ("blood_pressure_systolic")),
   (("Blood Pressure Diastolic"), ("blood_pressure_diastolic")),
   (("Active Calories"), ("active_calories")),
   (("Resting Calories"), ("resting_calories")),
   (("Resting Heart Rate"), ("resting_heart_rate")),
   (("Average Stress"), ("average_stress")),
   (("Training Status"), ("training_status")),
   (("VO2 Max Running"), ("vo2max_running")),
   (("Intensity Minutes"), ("intensity_minutes")),
   (("All Activity Count"), ("all_activity_count")),
   (("Running Activity Count"), ("running_activity_count")),
   (("Running Distance (km)"), ("running_distance")),
   (("Strength Activity Count"), ("strength_activity_count")),
   (("Strength Duration"), ("strength_duration")),
   (("Cardio Activity Count"), ("cardio_activity_count")),
   (("Cardio Duration"), ("cardio_duration")),
   (("HRV (ms)"), ("overnight_hrv")),
   (("HRV Status"), ("hrv_status")),
   (("Steps"), ("steps"))]

/-- Python dict.get(key) on an association list: the value of the first
matching key, or none.  The table has distinct keys, so this coincides with
the dict lookup. -/
def mapGet (m : List (String × String)) (k : String) : Option String :=
  (m.find? (fun p => p.1 = k)).map (fun p => p.2)

/-- Python getattr(metric, name, sentinel) restricted to the attribute names
that occur in HEADER_TO_ATTRIBUTE_MAP; an unknown name yields the empty-string
default that the call sites pass. -/
def getattrPy (m : GarminMetrics) : String → PyVal
  | "date" =>
    match m.date with
    | DateRep.obj d => PyVal.pdate d
    | DateRep.strRep s => PyVal.pstr s
  | "sleep_score" => (m.sleep_score).elim PyVal.pnone PyVal.pfloat
  | "sleep_length" => (m.sleep_length).elim PyVal.pnone PyVal.pfloat
  | "weight" => (m.weight).elim PyVal.pnone PyVal.pfloat
  | "body_fat" => (m.body_fat).elim PyVal.pnone PyVal.pfloat
  | "blood_pressure_systolic" => (m.blood_pressure_systolic).elim PyVal.pnone PyVal.pint
  | "blood_pressure_diastolic" => (m.blood_pressure_diastolic).elim PyVal.pnone PyVal.pint
  | "active_calories" => (m.active_calories).elim PyVal.pnone PyVal.pint
  | "resting_calories" => (m.resting_calories).elim PyVal.pnone PyVal.pint
  | "resting_heart_rate" => (m.resting_heart_rate).elim PyVal.pnone PyVal.pint
  | "average_stress" => (m.average_stress).elim PyVal.pnone PyVal.pint
  | "training_status" => (m.training_status).elim PyVal.pnone PyVal.pstr
  | "vo2max_running" => (m.vo2max_running).elim PyVal.pnone PyVal.pfloat
  | "intensity_minutes" => (m.intensity_minutes).elim PyVal.pnone PyVal.pint
  | "all_activity_count" => (m.all_activity_count).elim PyVal.pnone PyVal.pint
  | "running_activity_count" => (m.running_activity_count).elim PyVal.pnone PyVal.pint
  | "running_distance" => (m.running_distance).elim PyVal.pnone PyVal.pfloat
  | "strength_activity_count" => (m.strength_activity_count).elim PyVal.pnone PyVal.pint
  | "strength_duration" => (m.strength_duration).elim PyVal.pnone PyVal.pfloat
  | "cardio_activity_count" => (m.cardio_activity_count).elim PyVal.pnone PyVal.pint
  | "cardio_duration" => (m.cardio_duration).elim PyVal.pnone PyVal.pfloat
  | "overnight_hrv" => (m.overnight_hrv).elim PyVal.pnone PyVal.pint
  | "hrv_status" => (m.hrv_status).elim PyVal.pnone PyVal.pstr
  | "steps" => (m.steps).elim PyVal.pnone PyVal.pint
  | _ => PyVal.pstr ""

/-- Line 91 of sheets_client.py:
metric.date.isoformat() if isinstance(metric.date, date) else metric.date. -/
def metricDateStr (m : GarminMetrics) : String :=
  match m.date with
  | DateRep.obj d => isoformat d
  | DateRep.strRep s => s

/-- Round a rational to the nearest integer, ties to even - the rounding that
Python round() performs on the (exact) value. -/
def roundHalfEven (q : Rat) : Int :=
  let f : Int := Int.floor q
  let frac : Rat := q - f
  if frac < 1 / 2 then f
  else if 1 / 2 < frac then f + 1
  else if f % 2 = 0 then f else f + 1

/-- Python round(value, 2): round to two decimal places. -/
def round2 (q : Rat) : Rat := (roundHalfEven (q * 100) : Rat) / 100

/-- Lines 94-106 of sheets_client.py: the serialized cell for one header of
the fixed header list.  An unmapped header yields an empty cell; the date
attribute is replaced by the precomputed date string; None becomes the empty
cell; a float is rounded to two decimals; everything else passes through. -/
def serializeCell (m : GarminMetrics) (header : String) : PyVal :=
  let attribute_name := mapGet HEADER_TO_ATTRIBUTE_MAP header
  let value :=
    match attribute_name with
    | some a => getattrPy m a
    | none => PyVal.pstr ""
  let value := if attribute_name = some ("date") then PyVal.pstr (metricDateStr m) else value
  match value with
  | PyVal.pnone => PyVal.pstr ""
  | PyVal.pfloat q => PyVal.pfloat (round2 q)
  | v => v

/-- The full serialized row of a record: one cell per header, in the fixed
header order (the row_data loop of update_metrics). -/
def serializeRow (m : GarminMetrics) : List PyVal :=
  HEADERS.map (serializeCell m)

/-- The value region of the destination sheet: a list of rows of cells.
A row may be empty (no value in that row). -/
abbrev Sheet := List (List PyVal)

/-- The string the Sheets API returns for a stored cell value. -/
def renderCell : PyVal → String
  | PyVal.pstr s => s
  | PyVal.pint n => toString n
  | PyVal.pfloat q => toString q
  | PyVal.pdate d => isoformat d
  | PyVal.pnone => ""

/-- The column-A key of a row as the A:A values read returns it: the first
cell when it is nonempty, otherwise nothing (the read skips empty cells, and
the comprehension guard "if row" skips such rows). -/
def colAKey (row : List PyVal) : Option String :=
  match row.head? with
  | some c => if renderCell c = "" then none else some (renderCell c)
  | none => none

/-- The column-A key of the sheet row at 0-based index j. -/
def colAKeyAt (s : Sheet) (j : Nat) : Option String :=
  colAKey (s.getD j [])

/-- One candidate entry of the date-to-row index: row i (0-based) with
column-A key `key` yields the 1-based row number i+1 when the key matches. -/
def occEntry (k : String) (i : Nat) (key : Option String) : Option Nat :=
  match key with
  | some c => if c = k then some (i + 1) else none
  | none => none

/-- All 1-based row numbers whose column-A value equals k, in increasing
order - the bindings that the dict comprehension of line 82 produces for
key k. -/
def occRows (s : Sheet) (k : String) : List Nat :=
  (List.range s.length).filterMap (fun i => occEntry k i (colAKeyAt s i))

/-- Lookup in the date_to_row_map of line 82.  A Python dict comprehension
keeps the binding of the LAST enumeration step for a duplicated key, so the
lookup yields the last row number whose column-A value equals k. -/
def dateToRow (s : Sheet) (k : String) : Option Nat :=
  (occRows s k).getLast?

/-- The update-queue entry that a record contributes when its date string is
found in the index: the target 1-based row number paired with the serialized
row (lines 108-113). -/
def foundEntry (s : Sheet) (m : GarminMetrics) : Option (Nat × List PyVal) :=
  (dateToRow s (metricDateStr m)).map (fun r => (r, serializeRow m))

/-- The partition loop of lines 90-115: fold over the records, queueing an
update for a found date and an append otherwise, in processing order. -/
def buildBatches (s : Sheet) (metrics : List GarminMetrics) :
    List (Nat × List PyVal) × List (List PyVal) :=
  metrics.foldl
    (fun acc m =>
      match dateToRow s (metricDateStr m) with
      | some r => (acc.1 ++ [(r, serializeRow m)], acc.2)
      | none => (acc.1, acc.2 ++ [serializeRow m]))
    ([], [])

/-- Effect of one valueRange of the batchUpdate: overwrite the cells of row r
(1-based) starting at column A with v; cells beyond the width of v keep their
old values. -/
def applyUpdate (s : Sheet) (r : Nat) (v : List PyVal) : Sheet :=
  s.set (r - 1) (v ++ (s.getD (r - 1) []).drop v.length)

/-- Effect of the whole batchUpdate call: the queued updates applied in
order. -/
def applyUpdates (s : Sheet) (updates : List (Nat × List PyVal)) : Sheet :=
  updates.foldl (fun acc p => applyUpdate acc p.1 p.2) s

/-- The successive overwrites that a single row receives, in order. -/
def applyRowUpdates (old : List PyVal) (vs : List (List PyVal)) : List PyVal :=
  vs.foldl (fun acc v => v ++ acc.drop v.length) old

/-- The queued update values that target 1-based row j+1, in queue order. -/
def updatesFor (updates : List (Nat × List PyVal)) (j : Nat) : List (List PyVal) :=
  (updates.filter (fun p => decide (p.1 = j + 1))).map (fun p => p.2)

/-- A remote write call issued by the sheets client. -/
inductive WriteCall where
  | writeHeader
  | batchUpdate (data : List (Nat × List PyVal))
  | appendRows (values : List (List PyVal))
deriving DecidableEq

/-- True for the two commit-phase write calls of lines 117-133. -/
def isCommitCall : WriteCall → Bool
  | WriteCall.batchUpdate _ => true
  | WriteCall.appendRows _ => true
  | WriteCall.writeHeader => false

/-- True for a batched update call. -/
def isBatchUpdateCall : WriteCall → Bool
  | WriteCall.batchUpdate _ => true
  | _ => false

/-- True for an append call. -/
def isAppendCall : WriteCall → Bool
  | WriteCall.appendRows _ => true
  | _ => false

/-- Lines 117-133: one batchUpdate if the update queue is nonempty, then one
append if the append queue is nonempty; nothing otherwise. -/
def commitCalls (updates : List (Nat × List PyVal)) (appends : List (List PyVal)) :
    List WriteCall :=
  (if updates = [] then [] else [WriteCall.batchUpdate updates])
    ++ (if appends = [] then [] else [WriteCall.appendRows appends])

/-- The header row as written to the sheet. -/
def HEADER_ROW : List PyVal := HEADERS.map PyVal.pstr

/-- The effect of the header write of line 66-71: the header row is written
over row 1 starting at A1; cells of row 1 beyond the header width keep their
old values. -/
def writeHeaderRow : Sheet → Sheet
  | [] => [HEADER_ROW]
  | r :: rest => (HEADER_ROW ++ r.drop HEADER_ROW.length) :: rest

/-- setup_sheet (lines 50-71): ensure the sheet has content.  Tab creation
does not change any cell values, so it is not part of the value-level state.
The A1 probe of line 60-64 finds no value exactly when the first cell of
row 1 is empty; in that case the header row is written. -/
def setup_sheet (s : Sheet) : Sheet × List WriteCall :=
  if colAKeyAt s 0 = none then (writeHeaderRow s, [WriteCall.writeHeader])
  else (s, [])

/-- The observable outcome of one update_metrics invocation: the write calls
issued, the final sheet state, and whether an exception propagated to the
caller. -/
structure SheetsResult where
  calls : List WriteCall
  sheet : Sheet
  propagated : Bool
deriving DecidableEq

/-- update_metrics (lines 73-136).  readOk models the outcome of the A:A
read of lines 78-82: when it fails, the HttpError is caught, logged, and the
method returns with no further write call and no exception propagated. -/
def update_metrics (s0 : Sheet) (readOk : Bool) (metrics : List GarminMetrics) :
    SheetsResult :=
  let st := setup_sheet s0
  if readOk then
    let b := buildBatches st.1 metrics
    { calls := st.2 ++ commitCalls b.1 b.2
      sheet := applyUpdates st.1 b.1 ++ b.2
      propagated := false }
  else
    { calls := st.2, sheet := st.1, propagated := false }

/-- The raw CSV cell for one header (main.py line 233):
getattr(metric, HEADER_TO_ATTRIBUTE_MAP.get(h, sentinel), sentinel) with an
empty-string sentinel; no None or float conversion is applied here. -/
def write_csv_cell (m : GarminMetrics) (header : String) : PyVal :=
  match mapGet HEADER_TO_ATTRIBUTE_MAP header with
  | some a => getattrPy m a
  | none => PyVal.pstr ""

/-- One CSV row per record, cells in header order (main.py line 233). -/
def write_csv_row (m : GarminMetrics) : List PyVal :=
  HEADERS.map (write_csv_cell m)

/-- The CSV header row. -/
def CSV_HEADER_ROW : List PyVal := HEADERS.map PyVal.pstr

/-- The CSV sink of main.py lines 228-234: open in append mode, write the
header row only when the file is currently empty, then one row per record. -/
def csv_sink (file : List (List PyVal)) (metrics : List GarminMetrics) :
    List (List PyVal) :=
  (if file = [] then file ++ [CSV_HEADER_ROW] else file)
    ++ metrics.map write_csv_row

/-- The output target chosen for a sync invocation. -/
inductive OutputType where
  | sheets
  | csv
deriving DecidableEq

/-- One sink invocation: the chosen output target together with the complete
record list handed to it. -/
structure SinkCall where
  target : OutputType
  records : List GarminMetrics
deriving DecidableEq

/-- The while loop of main.py lines 157-162, with calendar dates modelled by
their day ordinals (date.toordinal; adding timedelta(days=1) adds one).  The
fuel argument is the number of remaining loop iterations; an error raised by
get_metrics aborts the loop and propagates. -/
def fetchLoop (fetch : Int → Except Unit GarminMetrics) :
    Nat → Int → Except Unit (List GarminMetrics)
  | 0, _ => Except.ok []
  | n + 1, cur =>
    match fetch cur with
    | Except.error e => Except.error e
    | Except.ok r =>
      match fetchLoop fetch n (cur + 1) with
      | Except.error e => Except.error e
      | Except.ok rest => Except.ok (r :: rest)

/-- The collected metrics_to_write list: the loop runs while
current_date <= end_date, so it performs (stop + 1 - start).toNat
iterations starting at start. -/
def collectMetrics (fetch : Int → Except Unit GarminMetrics) (start stop : Int) :
    Except Unit (List GarminMetrics) :=
  fetchLoop fetch (stop + 1 - start).toNat start

/-- The day ordinals from start to stop inclusive, in increasing order. -/
def dateRange (start stop : Int) : List Int :=
  (List.range (stop + 1 - start).toNat).map (fun i : Nat => start + (i : Int))

/-- The sync orchestrator (main.py lines 155-234), after authentication:
collect all records sequentially; if nothing was fetched, return without
invoking any sink; otherwise hand the complete list to the one chosen sink.
An error in the fetch loop propagates before any sink call. -/
def sync (fetch : Int → Except Unit GarminMetrics) (start stop : Int)
    (output_type : OutputType) : Except Unit (List SinkCall) :=
  match collectMetrics fetch start stop with
  | Except.error e => Except.error e
  | Except.ok ms => if ms = [] then Except.ok [] else Except.ok [⟨output_type, ms⟩]

/-- cli_sync (main.py lines 259-297) after successful date parsing: the CLI
path validates only the date format, never the ordering of the range, and
hands the parsed dates straight to sync. -/
def cli_sync (fetch : Int → Except Unit GarminMetrics) (start stop : Int)
    (output_type : OutputType) : Except Unit (List SinkCall) :=
  sync fetch start stop output_type

/-- The interactive end-date prompt check of main.py line 366: the entered
end date is accepted only when it is not before the start date. -/
def interactiveAcceptsEndDate (start stop : Int) : Bool :=
  decide (start ≤ stop)

/-- A record with the given date and all metric fields absent. -/
def emptyMetrics (d : DateRep) : GarminMetrics := { date := d }

/-- Concrete fixture: a record for 2024-01-01 with a string field set. -/
def m1w : GarminMetrics :=
  { date := DateRep.obj ⟨2024, 1, 1⟩
    training_status := some ("Productive") }

/-- Concrete fixture: a record for 2024-01-03 carrying the float value
72.456 from the spec example. -/
def mFloatW : GarminMetrics :=
  { date := DateRep.obj ⟨2024, 1, 3⟩
    sleep_score := some ((72456 : Rat) / 1000) }

/-- Concrete fixture: a record for 2024-01-02 with all fields absent. -/
def m2w : GarminMetrics := emptyMetrics (DateRep.obj ⟨2024, 1, 2⟩)

/-- Concrete fixture: a record whose date field holds a plain string. -/
def mStrDate : GarminMetrics := emptyMetrics (DateRep.strRep ("x"))

/-- Concrete fixture: a sheet whose first column holds the same date string
twice. -/
def exDupSheet : Sheet :=
  [[PyVal.pstr ("2024-01-01")], [PyVal.pstr ("2024-01-01")]]

/-- Concrete fixture: a sheet with a header row and one data row for
2024-01-01. -/
def s0w : Sheet :=
  [[PyVal.pstr ("Day/Date")], [PyVal.pstr ("2024-01-01")]]

/-- Concrete fixture: a fetch function that always succeeds with an empty
record. -/
def fetchW : Int → Except Unit GarminMetrics :=
  fun _ => Except.ok (emptyMetrics (DateRep.obj ⟨2024, 1, 1⟩))

/-- Concrete fixture: a fetch function that always fails. -/
def fetchFailW : Int → Except Unit GarminMetrics :=
  fun _ => Except.error ()

/-- Concrete fixture: the per-date record delivered by fetchW. -/
def recW : Int → GarminMetrics :=
  fun _ => emptyMetrics (DateRep.obj ⟨2024, 1, 1⟩)

/-! ### Generic list lemmas used by the reconciler proofs -/

theorem getD_append_left {α : Type} (s t : List α) (j : Nat) (d : α)
    (h : j < s.length) : (s ++ t).getD j d = s.getD j d := by
  induction s generalizing j with
  | nil => simp at h
  | cons a s ih =>
    cases j with
    | zero => rfl
    | succ j => simpa using ih j (by simpa using h)

theorem getD_append_right {α : Type} (s t : List α) (i : Nat) (d : α) :
    (s ++ t).getD (s.length + i) d = t.getD i d := by
  induction s with
  | nil => simp
  | cons a s ih => simpa [Nat.succ_add] using ih

theorem getD_set_self {α : Type} (l : List α) (i : Nat) (x d : α)
    (h : i < l.length) : (l.set i x).getD i d = x := by
  induction l generalizing i with
  | nil => simp at h
  | cons a l ih =>
    cases i with
    | zero => rfl
    | succ i => simpa using ih i (by simpa using h)

theorem getD_set_ne {α : Type} (l : List α) (i j : Nat) (x d : α)
    (h : i ≠ j) : (l.set i x).getD j d = l.getD j d := by
  induction l generalizing i j with
  | nil => rfl
  | cons a l ih =>
    cases i with
    | zero =>
      cases j with
      | zero => exact absurd rfl h
      | succ j => rfl
    | succ i =>
      cases j with
      | zero => rfl
      | succ j => simpa using ih i j (fun hc => h (by simpa using hc))

theorem set_getD_eq_self {α : Type} (l : List α) (j : Nat) (x d : α)
    (hj : j < l.length) (hx : l.getD j d = x) : l.set j x = l := by
  induction l generalizing j with
  | nil => simp at hj
  | cons a l ih =>
    cases j with
    | zero => simpa using hx.symm
    | succ j =>
      simp only [List.set]
      have := ih j (by simpa using hj) (by simpa using hx)
      rw [this]

theorem getD_mem {α : Type} (l : List α) (j : Nat) (d : α)
    (h : j < l.length) : l.getD j d ∈ l := by
  induction l generalizing j with
  | nil => simp at h
  | cons a l ih =>
    cases j with
    | zero => simp
    | succ j => simpa using Or.inr (ih j (by simpa using h))

theorem exists_getD_of_mem {α : Type} (l : List α) (a d : α)
    (h : a ∈ l) : ∃ j, j < l.length ∧ l.getD j d = a := by
  induction l with
  | nil => simp at h
  | cons b l ih =>
    rcases List.mem_cons.mp h with hb | hl
    · exact ⟨0, by simp, by simpa using hb.symm⟩
    · rcases ih hl with ⟨j, hj, hget⟩
      exact ⟨j + 1, by simpa using hj, by simpa using hget⟩

theorem getLast?_eq_none_iff {α : Type} (l : List α) :
    l.getLast? = none ↔ l = [] := by
  induction l with
  | nil => simp
  | cons a l ih =>
    cases l with
    | nil => simp
    | cons b t =>
      rw [List.getLast?_cons_cons]
      simpa using (ih.trans (by simp))

theorem mem_of_getLast? {α : Type} (l : List α) (a : α)
    (h : l.getLast? = some a) : a ∈ l := by
  induction l with
  | nil => simp at h
  | cons b l ih =>
    cases l with
    | nil =>
      simp only [List.getLast?_singleton, Option.some.injEq] at h
      simp [h]
    | cons c t =>
      rw [List.getLast?_cons_cons] at h
      exact List.mem_cons_of_mem _ (ih h)

theorem getLast?_map {α β : Type} (f : α → β) (l : List α) :
    (l.map f).getLast? = (l.getLast?).map f := by
  induction l with
  | nil => rfl
  | cons a l ih =>
    cases l with
    | nil => rfl
    | cons b t => simpa [List.getLast?_cons_cons] using ih

theorem sorted_getLast?_max {r : Nat} :
    ∀ {l : List Nat}, l.Pairwise (· < ·) → l.getLast? = some r →
      ∀ j ∈ l, j ≤ r := by
  intro l
  induction l with
  | nil => intro _ h; simp at h
  | cons a l ih =>
    intro hs h j hj
    cases l with
    | nil =>
      simp only [List.getLast?_singleton, Option.some.injEq] at h
      simp only [List.mem_singleton] at hj
      omega
    | cons b t =>
      rw [List.getLast?_cons_cons] at h
      rcases List.mem_cons.mp hj with hja | hjl
      · subst hja
        have hr : r ∈ b :: t := mem_of_getLast? _ _ h
        have := (List.pairwise_cons.mp hs).1 r hr
        omega
      · exact ih (List.pairwise_cons.mp hs).2 h j hjl

theorem filterMap_congr_mem {α β : Type} (l : List α) (f g : α → Option β)
    (h : ∀ a ∈ l, f a = g a) : l.filterMap f = l.filterMap g := by
  induction l with
  | nil => rfl
  | cons a l ih =>
    rw [List.filterMap_cons, List.filterMap_cons, h a (by simp),
      ih (fun x hx => h x (List.mem_cons_of_mem _ hx))]

theorem filterMap_eq_nil_of {α β : Type} (l : List α) (f : α → Option β)
    (h : ∀ a ∈ l, f a = none) : l.filterMap f = [] := by
  induction l with
  | nil => rfl
  | cons a l ih =>
    rw [List.filterMap_cons, h a (by simp)]
    exact ih (fun x hx => h x (List.mem_cons_of_mem _ hx))

theorem filter_eq_nil_of {α : Type} (l : List α) (p : α → Bool)
    (h : ∀ a ∈ l, p a = false) : l.filter p = [] := by
  induction l with
  | nil => rfl
  | cons a l ih =>
    rw [List.filter_cons, h a (by simp)]
    exact ih (fun x hx => h x (List.mem_cons_of_mem _ hx))

theorem filter_eq_self_of {α : Type} (l : List α) (p : α → Bool)
    (h : ∀ a ∈ l, p a = true) : l.filter p = l := by
  induction l with
  | nil => rfl
  | cons a l ih =>
    rw [List.filter_cons, h a (by simp), if_pos rfl,
      ih (fun x hx => h x (List.mem_cons_of_mem _ hx))]

theorem pairwise_filterMap_of {α β : Type} {R : α → α → Prop}
    {S : β → β → Prop} (f : α → Option β) {l : List α} (hl : l.Pairwise R)
    (h : ∀ a b, R a b → ∀ c, f a = some c → ∀ d, f b = some d → S c d) :
    (l.filterMap f).Pairwise S := by
  induction l with
  | nil => simp
  | cons a l ih =>
    rw [List.filterMap_cons]
    have hp := List.pairwise_cons.mp hl
    cases hfa : f a with
    | none => exact ih hp.2
    | some c =>
      rw [List.pairwise_cons]
      refine ⟨?_, ih hp.2⟩
      intro d hd
      rcases List.mem_filterMap.mp hd with ⟨b, hb, hfb⟩
      exact h a b (hp.1 b hb) c hfa d hfb

theorem nodup_map_inj {α β : Type} {f : α → β} :
    ∀ {l : List α}, (l.map f).Nodup → ∀ {x y : α}, x ∈ l → y ∈ l →
      f x = f y → x = y := by
  intro l
  induction l with
  | nil => intro _ x y hx; simp at hx
  | cons a l ih =>
    intro hn x y hx hy hf
    rw [List.map_cons, List.nodup_cons] at hn
    rcases List.mem_cons.mp hx with hxa | hxl
    · rcases List.mem_cons.mp hy with hya | hyl
      · rw [hxa, hya]
      · exfalso
        apply hn.1
        have hfy : f x ∈ l.map f := by
          rw [hf]; exact List.mem_map_of_mem f hyl
        rw [← hxa]; exact hfy
    · rcases List.mem_cons.mp hy with hya | hyl
      · exfalso
        apply hn.1
        have hfx : f y ∈ l.map f := by
          rw [← hf]; exact List.mem_map_of_mem f hxl
        rw [← hya]; exact hfx
      · exact ih hn.2 hxl hyl hf

theorem filter_eq_singleton_of_nodup {α : Type} [DecidableEq α] {m : α} :
    ∀ {l : List α}, l.Nodup → m ∈ l →
      l.filter (fun x => decide (x = m)) = [m] := by
  intro l
  induction l with
  | nil => intro _ hm; simp at hm
  | cons a l ih =>
    intro hn hm
    rw [List.nodup_cons] at hn
    by_cases ham : a = m
    · subst ham
      rw [List.filter_cons, if_pos (by simp)]
      have hnil : l.filter (fun x => decide (x = a)) = [] :=
        filter_eq_nil_of _ _ (fun x hx => by
          simp only [decide_eq_false_iff_not]
          intro hxa
          exact hn.1 (hxa ▸ hx))
      rw [hnil]
    · have hml : m ∈ l := by
        rcases List.mem_cons.mp hm with h | h
        · exact absurd h.symm ham
        · exact h
      rw [List.filter_cons, if_neg (by simpa using ham)]
      exact ih hn.2 hml

/-! ### Facts about the date rendering and the serialized row -/

theorem isoformat_length (d : PyDate) : (isoformat d).length = 10 := rfl

theorem isoformat_ne_empty (d : PyDate) : isoformat d ≠ "" := by
  intro h
  have hlen := congrArg String.length h
  rw [isoformat_length] at hlen
  simp at hlen

theorem isoformat_ne_header (d : PyDate) : isoformat d ≠ ("Day/Date") := by
  intro h
  have hlen := congrArg String.length h
  rw [isoformat_length] at hlen
  exact absurd hlen (by decide)

theorem metricDateStr_ne_empty (m : GarminMetrics)
    (h : isDateObj m.date = true) : metricDateStr m ≠ "" := by
  unfold metricDateStr
  cases hd : m.date with
  | obj d => exact isoformat_ne_empty d
  | strRep s => rw [hd] at h; simp [isDateObj] at h

theorem metricDateStr_ne_header (m : GarminMetrics)
    (h : isDateObj m.date = true) : metricDateStr m ≠ ("Day/Date") := by
  unfold metricDateStr
  cases hd : m.date with
  | obj d => exact isoformat_ne_header d
  | strRep s => rw [hd] at h; simp [isDateObj] at h

theorem serializeCell_date (m : GarminMetrics) :
    serializeCell m ("Day/Date") = PyVal.pstr (metricDateStr m) := rfl

theorem serializeRow_cons (m : GarminMetrics) :
    ∃ rest, serializeRow m = PyVal.pstr (metricDateStr m) :: rest :=
  ⟨_, rfl⟩

theorem serializeRow_length (m : GarminMetrics) :
    (serializeRow m).length = HEADERS.length := by
  simp [serializeRow]

theorem colAKey_serializeRow_append (m : GarminMetrics) (t : List PyVal)
    (h : metricDateStr m ≠ "") :
    colAKey (serializeRow m ++ t) = some (metricDateStr m) := by
  rcases serializeRow_cons m with ⟨rest, hr⟩
  rw [hr]
  simp [colAKey, renderCell, h]

theorem colAKey_serializeRow (m : GarminMetrics)
    (h : metricDateStr m ≠ "") :
    colAKey (serializeRow m) = some (metricDateStr m) := by
  rw [← List.append_nil (serializeRow m)]
  exact colAKey_serializeRow_append m [] h

/-! ### Facts about the date-to-row index -/

theorem occEntry_eq_some {k : String} {i r : Nat} {key : Option String} :
    occEntry k i key = some r ↔ key = some k ∧ r = i + 1 := by
  cases key with
  | none => simp [occEntry]
  | some c =>
    by_cases hc : c = k
    · simp [occEntry, hc, eq_comm]
    · simp [occEntry, hc]

theorem mem_occRows {s : Sheet} {k : String} {r : Nat} (h : r ∈ occRows s k) :
    1 ≤ r ∧ r - 1 < s.length ∧ colAKeyAt s (r - 1) = some k := by
  rcases List.mem_filterMap.mp h with ⟨i, hi, he⟩
  rw [occEntry_eq_some] at he
  obtain ⟨hkey, rfl⟩ := he
  have hil := List.mem_range.mp hi
  refine ⟨by omega, by simpa using hil, by simpa using hkey⟩

theorem mem_occRows_of {s : Sheet} {k : String} {j : Nat} (hj : j < s.length)
    (hk : colAKeyAt s j = some k) : j + 1 ∈ occRows s k :=
  List.mem_filterMap.mpr ⟨j, List.mem_range.mpr hj, by rw [hk]; simp [occEntry]⟩

theorem occRows_pairwise (s : Sheet) (k : String) :
    (occRows s k).Pairwise (· < ·) := by
  apply pairwise_filterMap_of _ (List.pairwise_lt_range _)
  intro a b hab c hc d hd
  rw [occEntry_eq_some] at hc hd
  omega

theorem occRows_congr {s t : Sheet} (hlen : s.length = t.length)
    (hkey : ∀ j, j < s.length → colAKeyAt s j = colAKeyAt t j) (k : String) :
    occRows s k = occRows t k := by
  unfold occRows
  rw [← hlen]
  exact filterMap_congr_mem _ _ _
    (fun i hi => by rw [hkey i (List.mem_range.mp hi)])

theorem occEntry_shift (k : String) (n i : Nat) (key : Option String) :
    occEntry k (n + i) key = (occEntry k i key).map (fun r => r + n) := by
  cases key with
  | none => rfl
  | some c =>
    by_cases hc : c = k
    · simp only [occEntry, if_pos hc, Option.map_some]
      congr 1
      show n + i + 1 = i + 1 + n
      omega
    · simp [occEntry, hc]

theorem occRows_append (s t : Sheet) (k : String) :
    occRows (s ++ t) k
      = occRows s k ++ (occRows t k).map (fun r => r + s.length) := by
  unfold occRows
  rw [List.length_append, List.range_add, List.filterMap_append, List.filterMap_map]
  congr 1
  · apply filterMap_congr_mem
    intro i hi
    unfold colAKeyAt
    rw [getD_append_left _ _ _ _ (List.mem_range.mp hi)]
  · rw [List.map_filterMap]
    apply filterMap_congr_mem
    intro i _
    show occEntry k (s.length + i) (colAKeyAt (s ++ t) (s.length + i)) = _
    unfold colAKeyAt
    rw [getD_append_right]
    exact occEntry_shift k s.length i _

theorem dateToRow_none_iff (s : Sheet) (k : String) :
    dateToRow s k = none ↔ occRows s k = [] :=
  getLast?_eq_none_iff _

theorem dateToRow_mem {s : Sheet} {k : String} {r : Nat}
    (h : dateToRow s k = some r) : r ∈ occRows s k :=
  mem_of_getLast? _ _ h

theorem dateToRow_spec {s : Sheet} {k : String} {r : Nat}
    (h : dateToRow s k = some r) :
    1 ≤ r ∧ r - 1 < s.length ∧ colAKeyAt s (r - 1) = some k :=
  mem_occRows (dateToRow_mem h)

/-! ### Characterisation of the update/append partition -/

theorem buildBatches_foldl_aux (s : Sheet) :
    ∀ (ms : List GarminMetrics) (u : List (Nat × List PyVal))
      (a : List (List PyVal)),
      ms.foldl
        (fun acc m =>
          match dateToRow s (metricDateStr m) with
          | some r => (acc.1 ++ [(r, serializeRow m)], acc.2)
          | none => (acc.1, acc.2 ++ [serializeRow m]))
        (u, a)
      = (u ++ ms.filterMap (foundEntry s),
         a ++ (ms.filter
            (fun m => (dateToRow s (metricDateStr m)).isNone)).map serializeRow) := by
  intro ms
  induction ms with
  | nil => intro u a; simp
  | cons m t ih =>
    intro u a
    rw [List.foldl_cons]
    cases hd : dateToRow s (metricDateStr m) with
    | some r =>
      simp only [hd]
      rw [ih]
      rw [List.filterMap_cons, List.filter_cons]
      simp [foundEntry, hd]
    | none =>
      simp only [hd]
      rw [ih]
      rw [List.filterMap_cons, List.filter_cons]
      simp [foundEntry, hd]

theorem buildBatches_eq (s : Sheet) (ms : List GarminMetrics) :
    buildBatches s ms
      = (ms.filterMap (foundEntry s),
         (ms.filter
            (fun m => (dateToRow s (metricDateStr m)).isNone)).map serializeRow) := by
  unfold buildBatches
  rw [buildBatches_foldl_aux]
  exact rfl

theorem foundEntry_eq_some {s : Sheet} {m : GarminMetrics}
    {p : Nat × List PyVal} (h : foundEntry s m = some p) :
    dateToRow s (metricDateStr m) = some p.1 ∧ p.2 = serializeRow m := by
  unfold foundEntry at h
  cases hd : dateToRow s (metricDateStr m) with
  | none => rw [hd] at h; simp at h
  | some r =>
    rw [hd] at h
    have hp : (r, serializeRow m) = p := by simpa using h
    rw [← hp]
    exact ⟨rfl, rfl⟩

theorem mem_updates {s : Sheet} {ms : List GarminMetrics}
    {p : Nat × List PyVal} (hp : p ∈ (buildBatches s ms).1) :
    ∃ m ∈ ms, dateToRow s (metricDateStr m) = some p.1
      ∧ p.2 = serializeRow m := by
  rw [buildBatches_eq] at hp
  rcases List.mem_filterMap.mp hp with ⟨m, hm, hf⟩
  exact ⟨m, hm, foundEntry_eq_some hf⟩

theorem updates_pos {s : Sheet} {ms : List GarminMetrics} :
    ∀ p ∈ (buildBatches s ms).1, 1 ≤ p.1 := by
  intro p hp
  rcases mem_updates hp with ⟨m, _, hd, _⟩
  exact (dateToRow_spec hd).1

theorem mem_appends {s : Sheet} {ms : List GarminMetrics}
    {row : List PyVal} (h : row ∈ (buildBatches s ms).2) :
    ∃ m ∈ ms, dateToRow s (metricDateStr m) = none ∧ row = serializeRow m := by
  rw [buildBatches_eq] at h
  rcases List.mem_map.mp h with ⟨m, hm, hrow⟩
  rw [List.mem_filter] at hm
  exact ⟨m, hm.1, Option.isNone_iff_eq_none.mp hm.2, hrow.symm⟩

theorem updatesFor_cons_eq (p : Nat × List PyVal)
    (U : List (Nat × List PyVal)) (j : Nat) (h : p.1 = j + 1) :
    updatesFor (p :: U) j = p.2 :: updatesFor U j := by
  unfold updatesFor
  rw [List.filter_cons, if_pos (by simpa using h)]
  rfl

theorem updatesFor_cons_ne (p : Nat × List PyVal)
    (U : List (Nat × List PyVal)) (j : Nat) (h : p.1 ≠ j + 1) :
    updatesFor (p :: U) j = updatesFor U j := by
  unfold updatesFor
  rw [List.filter_cons, if_neg (by simpa using h)]

theorem updatesFor_filterMap (s : Sheet) (j : Nat) :
    ∀ ms : List GarminMetrics,
      updatesFor (ms.filterMap (foundEntry s)) j
        = (ms.filter
            (fun m => decide (dateToRow s (metricDateStr m) = some (j + 1)))).map
            serializeRow := by
  intro ms
  induction ms with
  | nil => rfl
  | cons m t ih =>
    rw [List.filterMap_cons, List.filter_cons]
    cases hd : dateToRow s (metricDateStr m) with
    | none =>
      have hf : foundEntry s m = none := by simp [foundEntry, hd]
      rw [hf]
      rw [if_neg (by simp)]
      exact ih
    | some r =>
      have hf : foundEntry s m = some (r, serializeRow m) := by
        simp [foundEntry, hd]
      rw [hf]
      by_cases hr : r = j + 1
      · subst hr
        rw [if_pos (by simp)]
        change updatesFor ((j + 1, serializeRow m) :: t.filterMap (foundEntry s)) j = _
        rw [updatesFor_cons_eq _ _ _ rfl, List.map_cons, ih]
      · rw [if_neg (by simpa using hr)]
        change updatesFor ((r, serializeRow m) :: t.filterMap (foundEntry s)) j = _
        rw [updatesFor_cons_ne _ _ _ (by simpa using hr)]
        exact ih

theorem updatesFor_buildBatches (s : Sheet) (ms : List GarminMetrics) (j : Nat) :
    updatesFor (buildBatches s ms).1 j
      = (ms.filter
          (fun m => decide (dateToRow s (metricDateStr m) = some (j + 1)))).map
          serializeRow := by
  rw [buildBatches_eq]
  exact updatesFor_filterMap s j ms

theorem map_snd_filterMap (s : Sheet) :
    ∀ ms : List GarminMetrics,
      (ms.filterMap (foundEntry s)).map (fun p => p.2)
        = (ms.filter
            (fun m => (dateToRow s (metricDateStr m)).isSome)).map serializeRow := by
  intro ms
  induction ms with
  | nil => rfl
  | cons m t ih =>
    rw [List.filterMap_cons, List.filter_cons]
    cases hd : dateToRow s (metricDateStr m) with
    | none =>
      have hf : foundEntry s m = none := by simp [foundEntry, hd]
      rw [hf]
      rw [if_neg (by simp)]
      exact ih
    | some r =>
      have hf : foundEntry s m = some (r, serializeRow m) := by
        simp [foundEntry, hd]
      rw [hf]
      rw [if_pos (by simp)]
      change serializeRow m :: (t.filterMap (foundEntry s)).map (fun p => p.2) = _
      rw [List.map_cons, ih]

theorem updates_map_snd (s : Sheet) (ms : List GarminMetrics) :
    (buildBatches s ms).1.map (fun p => p.2)
      = (ms.filter
          (fun m => (dateToRow s (metricDateStr m)).isSome)).map serializeRow := by
  rw [buildBatches_eq]
  exact map_snd_filterMap s ms

/-! ### Pointwise behaviour of the batched update -/

theorem applyUpdates_length (U : List (Nat × List PyVal)) :
    ∀ s : Sheet, (applyUpdates s U).length = s.length := by
  induction U with
  | nil => intro s; rfl
  | cons p U ih =>
    intro s
    unfold applyUpdates
    rw [List.foldl_cons]
    have := ih (applyUpdate s p.1 p.2)
    unfold applyUpdates at this
    rw [this]
    unfold applyUpdate
    exact List.length_set s (p.1 - 1) _

theorem applyUpdates_getD (U : List (Nat × List PyVal)) :
    ∀ (s : Sheet) (j : Nat), (∀ p ∈ U, 1 ≤ p.1) → j < s.length →
      (applyUpdates s U).getD j [] = applyRowUpdates (s.getD j []) (updatesFor U j) := by
  induction U with
  | nil => intro s j _ _; rfl
  | cons p U ih =>
    intro s j hpos hj
    unfold applyUpdates
    rw [List.foldl_cons]
    have hlen : (applyUpdate s p.1 p.2).length = s.length :=
      List.length_set s (p.1 - 1) _
    have hrec := ih (applyUpdate s p.1 p.2) j
      (fun q hq => hpos q (List.mem_cons_of_mem _ hq)) (by omega)
    unfold applyUpdates at hrec
    rw [hrec]
    have hp1 : 1 ≤ p.1 := hpos p (by simp)
    by_cases hpj : p.1 = j + 1
    · rw [updatesFor_cons_eq p U j hpj]
      have hidx : p.1 - 1 = j := by omega
      unfold applyUpdate
      rw [hidx]
      rw [getD_set_self s j _ [] hj]
      rfl
    · rw [updatesFor_cons_ne p U j hpj]
      have hidx : p.1 - 1 ≠ j := by omega
      unfold applyUpdate
      rw [getD_set_ne s (p.1 - 1) j _ [] hidx]

theorem applyRowUpdates_last (n : Nat) :
    ∀ (vs : List (List PyVal)), (∀ v ∈ vs, v.length = n) →
      ∀ old : List PyVal,
        applyRowUpdates old vs
          = match vs.getLast? with
            | none => old
            | some v => v ++ old.drop n := by
  intro vs
  induction vs with
  | nil => intro _ old; rfl
  | cons v vs ih =>
    intro hlen old
    have hv : v.length = n := hlen v (by simp)
    have hrec := ih (fun w hw => hlen w (List.mem_cons_of_mem _ hw))
      (v ++ old.drop v.length)
    unfold applyRowUpdates at hrec ⊢
    rw [List.foldl_cons, hrec]
    cases vs with
    | nil =>
      show v ++ old.drop v.length = v ++ old.drop n
      rw [hv]
    | cons w ws =>
      rw [List.getLast?_cons_cons]
      cases hlast : (w :: ws).getLast? with
      | none =>
        rw [getLast?_eq_none_iff] at hlast
        exact absurd hlast (by simp)
      | some vl =>
        show vl ++ (v ++ old.drop v.length).drop n = vl ++ old.drop n
        rw [hv]
        have hdrop : (v ++ old.drop n).drop n = old.drop n := by
          rw [← hv, List.drop_left]
        rw [hdrop]

/-! ### Facts about the setup phase and the full reconciliation -/

theorem setup_sheet_calls (s : Sheet) :
    (setup_sheet s).2 = [] ∨ (setup_sheet s).2 = [WriteCall.writeHeader] := by
  unfold setup_sheet
  by_cases h : colAKeyAt s 0 = none
  · rw [if_pos h]
    exact Or.inr rfl
  · rw [if_neg h]
    exact Or.inl rfl

theorem colAKey_header_append (x : List PyVal) :
    colAKey (HEADER_ROW ++ x) = some ("Day/Date") := rfl

theorem writeHeaderRow_key0 (s : Sheet) :
    colAKeyAt (writeHeaderRow s) 0 = some ("Day/Date") := by
  cases s with
  | nil => rfl
  | cons r rest => rfl

theorem writeHeaderRow_ne_nil (s : Sheet) : writeHeaderRow s ≠ [] := by
  cases s with
  | nil => simp [writeHeaderRow]
  | cons r rest => simp [writeHeaderRow]

theorem setup_sheet_key0 (s : Sheet) :
    colAKeyAt (setup_sheet s).1 0 ≠ none := by
  unfold setup_sheet
  by_cases h : colAKeyAt s 0 = none
  · rw [if_pos h]
    show colAKeyAt (writeHeaderRow s) 0 ≠ none
    rw [writeHeaderRow_key0]
    simp
  · rw [if_neg h]
    exact h

theorem setup_sheet_ne_nil (s : Sheet) : (setup_sheet s).1 ≠ [] := by
  unfold setup_sheet
  by_cases h : colAKeyAt s 0 = none
  · rw [if_pos h]
    exact writeHeaderRow_ne_nil s
  · rw [if_neg h]
    show s ≠ []
    intro hs
    rw [hs] at h
    exact h rfl

theorem setup_sheet_fix (s : Sheet)
    (h : colAKeyAt s 0 ≠ none) : setup_sheet s = (s, []) := by
  unfold setup_sheet
  rw [if_neg h]

theorem update_metrics_ok (s0 : Sheet) (ms : List GarminMetrics) :
    update_metrics s0 true ms
      = { calls := (setup_sheet s0).2
            ++ commitCalls (buildBatches (setup_sheet s0).1 ms).1
                 (buildBatches (setup_sheet s0).1 ms).2
          sheet := applyUpdates (setup_sheet s0).1
              (buildBatches (setup_sheet s0).1 ms).1
            ++ (buildBatches (setup_sheet s0).1 ms).2
          propagated := false } := rfl

theorem update_metrics_fail (s0 : Sheet) (ms : List GarminMetrics) :
    update_metrics s0 false ms
      = { calls := (setup_sheet s0).2
          sheet := (setup_sheet s0).1
          propagated := false } := rfl

theorem commit_keys (s1 : Sheet) (ms : List GarminMetrics)
    (hO : ∀ m ∈ ms, isDateObj m.date = true) :
    ∀ j, j < s1.length →
      colAKeyAt (applyUpdates s1 (buildBatches s1 ms).1) j = colAKeyAt s1 j := by
  intro j hj
  unfold colAKeyAt
  rw [applyUpdates_getD _ s1 j updates_pos hj]
  have hlenall : ∀ w ∈ updatesFor (buildBatches s1 ms).1 j,
      w.length = HEADERS.length := by
    intro w hw
    rw [updatesFor_buildBatches] at hw
    rcases List.mem_map.mp hw with ⟨m, _, hwm⟩
    rw [← hwm]
    exact serializeRow_length m
  rw [applyRowUpdates_last HEADERS.length _ hlenall (s1.getD j [])]
  cases hlast : (updatesFor (buildBatches s1 ms).1 j).getLast? with
  | none => rfl
  | some vl =>
    have hmem : vl ∈ updatesFor (buildBatches s1 ms).1 j :=
      mem_of_getLast? _ _ hlast
    rw [updatesFor_buildBatches] at hmem
    rcases List.mem_map.mp hmem with ⟨m, hmf, hvm⟩
    rw [List.mem_filter] at hmf
    have hdm : dateToRow s1 (metricDateStr m) = some (j + 1) := by
      simpa using hmf.2
    have hne := metricDateStr_ne_empty m (hO m hmf.1)
    rw [← hvm]
    rw [colAKey_serializeRow_append m _ hne]
    have hkey := (dateToRow_spec hdm).2.2
    simp only [Nat.add_sub_cancel] at hkey
    exact hkey.symm

theorem found_row_update (s1 : Sheet) (ms : List GarminMetrics)
    (m : GarminMetrics) (r : Nat)
    (hN : (ms.map metricDateStr).Nodup)
    (hm : m ∈ ms)
    (hr : dateToRow s1 (metricDateStr m) = some r) :
    r - 1 < s1.length ∧
      (applyUpdates s1 (buildBatches s1 ms).1).getD (r - 1) []
        = serializeRow m
            ++ ((s1.getD (r - 1) []).drop (serializeRow m).length) := by
  have hspec := dateToRow_spec hr
  refine ⟨hspec.2.1, ?_⟩
  rw [applyUpdates_getD _ s1 (r - 1) updates_pos hspec.2.1]
  have hfor : updatesFor (buildBatches s1 ms).1 (r - 1) = [serializeRow m] := by
    rw [updatesFor_buildBatches]
    have hr1 : r - 1 + 1 = r := by omega
    rw [hr1]
    have hcong : ms.filter
          (fun x => decide (dateToRow s1 (metricDateStr x) = some r))
        = ms.filter (fun x => decide (x = m)) := by
      apply List.filter_congr
      intro x hx
      by_cases hxm : x = m
      · subst hxm
        simp [hr]
      · have hnd : dateToRow s1 (metricDateStr x) ≠ some r := by
          intro hcontra
          have h1 := (dateToRow_spec hcontra).2.2
          have h2 := hspec.2.2
          rw [h1] at h2
          have hds : metricDateStr x = metricDateStr m := by
            injection h2
          exact hxm (nodup_map_inj hN hx hm hds)
        simp [hxm, hnd]
    rw [hcong,
      filter_eq_singleton_of_nodup (List.Nodup.of_map metricDateStr hN) hm]
    rfl
  rw [hfor]
  rfl

theorem appends_key_not_found (s1 : Sheet) (ms : List GarminMetrics)
    (hO : ∀ x ∈ ms, isDateObj x.date = true) :
    ∀ row ∈ (buildBatches s1 ms).2, ∀ d : String,
      colAKey row = some d → dateToRow s1 d = none := by
  intro row hrow d hkey
  rcases mem_appends hrow with ⟨m, hm, hnone, hrm⟩
  rw [hrm, colAKey_serializeRow m (metricDateStr_ne_empty m (hO m hm))] at hkey
  have hd : metricDateStr m = d := by injection hkey
  rw [← hd]
  exact hnone

theorem appends_row_unique (s1 : Sheet) (ms : List GarminMetrics)
    (m : GarminMetrics)
    (hO : ∀ x ∈ ms, isDateObj x.date = true)
    (hN : (ms.map metricDateStr).Nodup) (hm : m ∈ ms) :
    ∀ row ∈ (buildBatches s1 ms).2,
      colAKey row = some (metricDateStr m) → row = serializeRow m := by
  intro row hrow hkey
  rcases mem_appends hrow with ⟨x, hx, _, hrx⟩
  rw [hrx, colAKey_serializeRow x (metricDateStr_ne_empty x (hO x hx))] at hkey
  have hds : metricDateStr x = metricDateStr m := by injection hkey
  rw [hrx, nodup_map_inj hN hx hm hds]

theorem applyUpdates_noop :
    ∀ (U : List (Nat × List PyVal)) (s : Sheet),
      (∀ p ∈ U, p.1 - 1 < s.length ∧
        (s.getD (p.1 - 1) []).take p.2.length = p.2) →
      applyUpdates s U = s := by
  intro U
  induction U with
  | nil => intro s _; rfl
  | cons p U ih =>
    intro s h
    have hp := h p (by simp)
    unfold applyUpdates
    rw [List.foldl_cons]
    have hstep : applyUpdate s p.1 p.2 = s := by
      unfold applyUpdate
      have hsplit : p.2 ++ (s.getD (p.1 - 1) []).drop p.2.length
          = s.getD (p.1 - 1) [] := by
        conv_rhs => rw [← List.take_append_drop p.2.length (s.getD (p.1 - 1) [])]
        rw [hp.2]
      rw [hsplit]
      exact set_getD_eq_self _ _ _ [] hp.1 rfl
    rw [hstep]
    exact ih s (fun q hq => h q (List.mem_cons_of_mem _ hq))

theorem dateToRow_header_only (k : String) (hk : k ≠ ("Day/Date")) :
    dateToRow [HEADER_ROW] k = none := by
  rw [dateToRow_none_iff]
  unfold occRows
  apply filterMap_eq_nil_of
  intro i hi
  have hi0 : i = 0 := by
    have h1 : i < 1 := by simpa using List.mem_range.mp hi
    omega
  subst hi0
  have hkey : colAKeyAt [HEADER_ROW] 0 = some ("Day/Date") := rfl
  rw [hkey]
  show (if ("Day/Date") = k then some (0 + 1) else none) = none
  rw [if_neg (fun h => hk h.symm)]

/-! ### The reconciled sheet re-finds every record on a second pass -/

theorem occRows_commit (s1 : Sheet) (ms : List GarminMetrics)
    (hO : ∀ x ∈ ms, isDateObj x.date = true) (d : String) :
    occRows (applyUpdates s1 (buildBatches s1 ms).1 ++ (buildBatches s1 ms).2) d
      = occRows s1 d
        ++ (occRows (buildBatches s1 ms).2 d).map (fun r => r + s1.length) := by
  rw [occRows_append]
  rw [applyUpdates_length]
  congr 1
  exact occRows_congr (applyUpdates_length _ s1)
    (fun j hj => commit_keys s1 ms hO j (by
      rw [applyUpdates_length] at hj; exact hj)) d

theorem refind (s1 : Sheet) (ms : List GarminMetrics)
    (hO : ∀ x ∈ ms, isDateObj x.date = true)
    (hN : (ms.map metricDateStr).Nodup)
    (m : GarminMetrics) (hm : m ∈ ms) :
    ∃ ρ,
      dateToRow
          (applyUpdates s1 (buildBatches s1 ms).1 ++ (buildBatches s1 ms).2)
          (metricDateStr m) = some ρ ∧
      ρ - 1
        < (applyUpdates s1 (buildBatches s1 ms).1
            ++ (buildBatches s1 ms).2).length ∧
      ((applyUpdates s1 (buildBatches s1 ms).1
          ++ (buildBatches s1 ms).2).getD (ρ - 1) []).take
            (serializeRow m).length
        = serializeRow m := by
  have hocc := occRows_commit s1 ms hO (metricDateStr m)
  have hlenf1 : (applyUpdates s1 (buildBatches s1 ms).1
      ++ (buildBatches s1 ms).2).length
      = s1.length + (buildBatches s1 ms).2.length := by
    rw [List.length_append, applyUpdates_length]
  cases hd : dateToRow s1 (metricDateStr m) with
  | some r =>
    have hAempty : occRows (buildBatches s1 ms).2 (metricDateStr m) = [] := by
      cases hAo : occRows (buildBatches s1 ms).2 (metricDateStr m) with
      | nil => rfl
      | cons x xs =>
        exfalso
        have hx : x ∈ occRows (buildBatches s1 ms).2 (metricDateStr m) := by
          rw [hAo]; simp
        have hxs := mem_occRows hx
        have hrowmem : (buildBatches s1 ms).2.getD (x - 1) []
            ∈ (buildBatches s1 ms).2 := getD_mem _ _ _ hxs.2.1
        have hnone := appends_key_not_found s1 ms hO _ hrowmem _ hxs.2.2
        rw [hd] at hnone
        exact Option.noConfusion hnone
    have hfound := found_row_update s1 ms m r hN hm hd
    refine ⟨r, ?_, ?_, ?_⟩
    · unfold dateToRow
      rw [hocc, hAempty]
      simpa using hd
    · omega
    · have hidx : r - 1 < (applyUpdates s1 (buildBatches s1 ms).1).length := by
        rw [applyUpdates_length]; exact hfound.1
      rw [getD_append_left _ _ _ _ hidx, hfound.2, List.take_left]
  | none =>
    have hne := metricDateStr_ne_empty m (hO m hm)
    have hs1empty : occRows s1 (metricDateStr m) = [] :=
      (dateToRow_none_iff _ _).mp hd
    have hmemA : serializeRow m ∈ (buildBatches s1 ms).2 := by
      rw [buildBatches_eq]
      apply List.mem_map_of_mem
      rw [List.mem_filter]
      exact ⟨hm, by rw [hd]; rfl⟩
    rcases exists_getD_of_mem _ _ [] hmemA with ⟨a, ha, hga⟩
    have hkeya : colAKeyAt (buildBatches s1 ms).2 a = some (metricDateStr m) := by
      unfold colAKeyAt
      rw [hga]
      exact colAKey_serializeRow m hne
    have hmemocc := mem_occRows_of ha hkeya
    cases hlast : (occRows (buildBatches s1 ms).2 (metricDateStr m)).getLast? with
    | none =>
      rw [getLast?_eq_none_iff] at hlast
      rw [hlast] at hmemocc
      exact absurd hmemocc (by simp)
    | some x =>
      have hxmem := mem_of_getLast? _ _ hlast
      have hxs := mem_occRows hxmem
      have hrowa : (buildBatches s1 ms).2.getD (x - 1) [] = serializeRow m := by
        apply appends_row_unique s1 ms m hO hN hm
        · exact getD_mem _ _ _ hxs.2.1
        · exact hxs.2.2
      refine ⟨x + s1.length, ?_, ?_, ?_⟩
      · unfold dateToRow
        rw [hocc, hs1empty, List.nil_append, getLast?_map, hlast]
        rfl
      · omega
      · have hidx : x + s1.length - 1
            = (applyUpdates s1 (buildBatches s1 ms).1).length + (x - 1) := by
          rw [applyUpdates_length]
          omega
        rw [hidx, getD_append_right, hrowa, List.take_length]

theorem reconcile_idem (s1 : Sheet) (ms : List GarminMetrics)
    (hO : ∀ x ∈ ms, isDateObj x.date = true)
    (hN : (ms.map metricDateStr).Nodup)
    (hne : s1 ≠ []) (hkey0 : colAKeyAt s1 0 ≠ none) :
    (update_metrics
        (applyUpdates s1 (buildBatches s1 ms).1 ++ (buildBatches s1 ms).2)
        true ms).sheet
      = applyUpdates s1 (buildBatches s1 ms).1 ++ (buildBatches s1 ms).2 := by
  have hlpos : 0 < s1.length := List.length_pos.mpr hne
  have hkeyf1 : colAKeyAt
      (applyUpdates s1 (buildBatches s1 ms).1 ++ (buildBatches s1 ms).2) 0
      ≠ none := by
    unfold colAKeyAt
    rw [getD_append_left _ _ _ _ (by rw [applyUpdates_length]; exact hlpos)]
    have hc := commit_keys s1 ms hO 0 hlpos
    unfold colAKeyAt at hc
    rw [hc]
    exact hkey0
  have hsetup := setup_sheet_fix _ hkeyf1
  rw [update_metrics_ok, hsetup]
  have hA2 : (buildBatches
      (applyUpdates s1 (buildBatches s1 ms).1 ++ (buildBatches s1 ms).2)
      ms).2 = [] := by
    rw [buildBatches_eq]
    have hfil : ms.filter
        (fun x => (dateToRow
          (applyUpdates s1 (buildBatches s1 ms).1 ++ (buildBatches s1 ms).2)
          (metricDateStr x)).isNone) = [] := by
      apply filter_eq_nil_of
      intro x hx
      rcases refind s1 ms hO hN x hx with ⟨ρ, hρ, _, _⟩
      rw [hρ]
      rfl
    rw [hfil]
    rfl
  have hU2 : applyUpdates
      (applyUpdates s1 (buildBatches s1 ms).1 ++ (buildBatches s1 ms).2)
      (buildBatches
        (applyUpdates s1 (buildBatches s1 ms).1 ++ (buildBatches s1 ms).2)
        ms).1
      = applyUpdates s1 (buildBatches s1 ms).1 ++ (buildBatches s1 ms).2 := by
    apply applyUpdates_noop
    intro p hp
    rcases mem_updates hp with ⟨x, hx, hdx, hpx⟩
    rcases refind s1 ms hO hN x hx with ⟨ρ, hρ, hb, htake⟩
    have hpρ : p.1 = ρ := by
      rw [hdx] at hρ
      injection hρ
    rw [hpρ, hpx]
    exact ⟨hb, htake⟩
  show applyUpdates _ _ ++ _ = _
  rw [hA2, hU2, List.append_nil]

/-! ### Facts about the commit calls -/

theorem commitCalls_count_batch (U : List (Nat × List PyVal))
    (A : List (List PyVal)) :
    (commitCalls U A).countP isBatchUpdateCall ≤ 1 := by
  unfold commitCalls
  by_cases hU : U = [] <;> by_cases hA : A = [] <;>
    simp [hU, hA, isBatchUpdateCall, List.countP_cons]

theorem commitCalls_count_append (U : List (Nat × List PyVal))
    (A : List (List PyVal)) :
    (commitCalls U A).countP isAppendCall ≤ 1 := by
  unfold commitCalls
  by_cases hU : U = [] <;> by_cases hA : A = [] <;>
    simp [hU, hA, isAppendCall, List.countP_cons]

theorem commitCalls_mem_batch {U : List (Nat × List PyVal)}
    {A : List (List PyVal)} {data : List (Nat × List PyVal)}
    (h : WriteCall.batchUpdate data ∈ commitCalls U A) : data = U := by
  unfold commitCalls at h
  rcases List.mem_append.mp h with h1 | h1
  · by_cases hU : U = []
    · rw [if_pos hU] at h1
      exact absurd h1 (by simp)
    · rw [if_neg hU] at h1
      have := List.mem_singleton.mp h1
      injection this
  · by_cases hA : A = []
    · rw [if_pos hA] at h1
      exact absurd h1 (by simp)
    · rw [if_neg hA] at h1
      have := List.mem_singleton.mp h1
      exact WriteCall.noConfusion this

theorem commitCalls_mem_append {U : List (Nat × List PyVal)}
    {A : List (List PyVal)} {vals : List (List PyVal)}
    (h : WriteCall.appendRows vals ∈ commitCalls U A) : vals = A := by
  unfold commitCalls at h
  rcases List.mem_append.mp h with h1 | h1
  · by_cases hU : U = []
    · rw [if_pos hU] at h1
      exact absurd h1 (by simp)
    · rw [if_neg hU] at h1
      have := List.mem_singleton.mp h1
      exact WriteCall.noConfusion this
  · by_cases hA : A = []
    · rw [if_pos hA] at h1
      exact absurd h1 (by simp)
    · rw [if_neg hA] at h1
      have := List.mem_singleton.mp h1
      injection this

theorem commitCalls_nil {U : List (Nat × List PyVal)}
    {A : List (List PyVal)} (hU : U = []) (hA : A = []) :
    commitCalls U A = [] := by
  unfold commitCalls
  rw [if_pos hU, if_pos hA]
  rfl

theorem setup_calls_no_commit (s0 : Sheet) (f : WriteCall → Bool)
    (hf : f WriteCall.writeHeader = false) :
    (setup_sheet s0).2.countP f = 0 ∧ (setup_sheet s0).2.filter f = [] := by
  rcases setup_sheet_calls s0 with h | h <;> rw [h] <;> simp [hf]

/-! ### More list helpers for maps -/

theorem map_congr_mem {α β : Type} (l : List α) (f g : α → β)
    (h : ∀ a ∈ l, f a = g a) : l.map f = l.map g := by
  induction l with
  | nil => rfl
  | cons a l ih =>
    rw [List.map_cons, List.map_cons, h a (by simp),
      ih (fun x hx => h x (List.mem_cons_of_mem _ hx))]

theorem touched_keys_nodup (s1 : Sheet) (ms : List GarminMetrics)
    (hO : ∀ x ∈ ms, isDateObj x.date = true)
    (hN : (ms.map metricDateStr).Nodup) :
    (((buildBatches s1 ms).1.map (fun p => p.2)
        ++ (buildBatches s1 ms).2).map colAKey).Nodup := by
  have hA : (buildBatches s1 ms).2
      = (ms.filter
          (fun m => (dateToRow s1 (metricDateStr m)).isNone)).map serializeRow := by
    rw [buildBatches_eq]
  rw [updates_map_snd, hA, List.map_append, List.map_map, List.map_map]
  have hkey : ∀ (p : GarminMetrics → Bool),
      (ms.filter p).map (colAKey ∘ serializeRow)
        = ((ms.filter p).map metricDateStr).map some := by
    intro p
    rw [List.map_map]
    apply map_congr_mem
    intro x hx
    have hxm : x ∈ ms := List.mem_of_mem_filter hx
    show colAKey (serializeRow x) = some (metricDateStr x)
    exact colAKey_serializeRow x (metricDateStr_ne_empty x (hO x hxm))
  rw [hkey, hkey]
  have hsub : ∀ (p : GarminMetrics → Bool),
      ((ms.filter p).map metricDateStr).map some |>.Nodup := by
    intro p
    apply List.Nodup.map (Option.some_injective _)
    exact hN.sublist ((List.filter_sublist ms).map metricDateStr)
  apply List.Nodup.append (hsub _) (hsub _)
  intro x hx1 hx2
  rcases List.mem_map.mp hx1 with ⟨d1, hd1, hx1e⟩
  rcases List.mem_map.mp hx2 with ⟨d2, hd2, hx2e⟩
  rcases List.mem_map.mp hd1 with ⟨a, ha, hd1e⟩
  rcases List.mem_map.mp hd2 with ⟨b, hb, hd2e⟩
  rw [List.mem_filter] at ha hb
  have hd12 : d1 = d2 := by
    rw [← hx2e] at hx1e
    exact Option.some_injective _ hx1e
  have hdab : metricDateStr a = metricDateStr b := by
    rw [hd1e, hd2e, hd12]
  have hsome := ha.2
  have hnone := hb.2
  rw [hdab] at hsome
  simp only [Option.isSome_iff_exists] at hsome
  rcases hsome with ⟨r, hr⟩
  rw [hr] at hnone
  exact Bool.noConfusion hnone

/-! ### The orchestrator fetch loop -/

theorem fetchLoop_ok (fetch : Int → Except Unit GarminMetrics)
    (rec : Int → GarminMetrics) :
    ∀ (n : Nat) (cur : Int),
      (∀ d : Int, cur ≤ d → d < cur + n → fetch d = Except.ok (rec d)) →
      fetchLoop fetch n cur
        = Except.ok (((List.range n).map (fun i : Nat => cur + (i : Int))).map rec) := by
  intro n
  induction n with
  | zero => intro cur _; rfl
  | succ k ih =>
    intro cur h
    have h0 : fetch cur = Except.ok (rec cur) :=
      h cur (le_refl _) (by omega)
    have hrest := ih (cur + 1) (fun d hd1 hd2 => h d (by omega) (by omega))
    unfold fetchLoop
    rw [h0, hrest]
    show Except.ok (rec cur :: _) = _
    congr 1
    rw [List.range_succ_eq_map, List.map_cons, List.map_cons,
      List.map_map, List.map_map]
    congr 1
    · show rec cur = rec (cur + ((0 : Nat) : Int))
      congr 1
      omega
    · rw [List.map_map]
      apply map_congr_mem
      intro i _
      show rec (cur + 1 + (i : Int)) = rec (cur + ((i.succ : Nat) : Int))
      congr 1
      push_cast
      omega

theorem collectMetrics_ok (fetch : Int → Except Unit GarminMetrics)
    (rec : Int → GarminMetrics) (start stop : Int) (hle : start ≤ stop)
    (h : ∀ d, start ≤ d → d ≤ stop → fetch d = Except.ok (rec d)) :
    collectMetrics fetch start stop
      = Except.ok ((dateRange start stop).map rec) := by
  unfold collectMetrics dateRange
  apply fetchLoop_ok
  intro d hd1 hd2
  apply h d hd1
  omega

theorem dateRange_mem (start stop : Int) (hle : start ≤ stop) (d : Int) :
    d ∈ dateRange start stop ↔ start ≤ d ∧ d ≤ stop := by
  unfold dateRange
  constructor
  · intro hd
    rcases List.mem_map.mp hd with ⟨i, hi, hde⟩
    have hlt := List.mem_range.mp hi
    have hde2 : start + (i : Int) = d := hde
    omega
  · intro hrange
    refine List.mem_map.mpr
      ⟨(d - start).toNat, List.mem_range.mpr (by omega), ?_⟩
    show start + (((d - start).toNat : Nat) : Int) = d
    omega

theorem dateRange_sorted (start stop : Int) :
    (dateRange start stop).Pairwise (· < ·) := by
  unfold dateRange
  refine List.Pairwise.map _ ?_ (List.pairwise_lt_range _)
  intro a b hab
  show start + (a : Int) < start + (b : Int)
  omega

theorem dateRange_ne_nil (start stop : Int) (hle : start ≤ stop) :
    dateRange start stop ≠ [] := by
  intro hnil
  have := congrArg List.length hnil
  simp only [dateRange, List.length_map, List.length_range,
    List.length_nil] at this
  omega

/-! ### The claims -/

/-- Claim C1, counterexample: on a sheet whose first column holds the date
string 2024-01-01 in rows 1 and 2, the dict-comprehension index of
sheets_client.py line 82 maps the string to row 2 although the first
occurrence is row 1, so the claim that the mapped row number is the
smallest one holding the string is false. -/
theorem C1_counterexample :
    dateToRow exDupSheet ("2024-01-01") = some 2
      ∧ (1 : Nat) ∈ occRows exDupSheet ("2024-01-01")
      ∧ ¬ (∀ r, dateToRow exDupSheet ("2024-01-01") = some r →
            ∀ j ∈ occRows exDupSheet ("2024-01-01"), r ≤ j) := by
  refine ⟨by decide, by decide, ?_⟩
  intro hclaim
  have h := hclaim 2 (by decide) 1 (by decide)
  omega

/-- Claim C1, amended: when a date string appears in more than one row of the
first column, the index maps it to the row number of its LAST occurrence -
the largest qualifying row number - because the dict comprehension of line 82
lets a later binding overwrite an earlier one. -/
theorem C1_last_occurrence_wins (s : Sheet) (k : String) (r : Nat)
    (h : dateToRow s k = some r) :
    r ∈ occRows s k ∧ ∀ j ∈ occRows s k, j ≤ r :=
  ⟨dateToRow_mem h, sorted_getLast?_max (occRows_pairwise s k) h⟩

/-- Witness for C1: the amended theorem applied to the duplicate-row sheet. -/
theorem C1_witness :
    (2 : Nat) ∈ occRows exDupSheet ("2024-01-01")
      ∧ ∀ j ∈ occRows exDupSheet ("2024-01-01"), j ≤ 2 :=
  C1_last_occurrence_wins exDupSheet ("2024-01-01") 2 (by decide)

/-- Claim C2, counterexample: when the date-column read fails, update_metrics
catches the HttpError, logs it and returns normally (lines 83-85) - no
exception is propagated to the caller, refuting the claim that the error is
propagated.  The no-partial-write half of the claim does hold: no update or
append call is issued. -/
theorem C2_counterexample :
    (update_metrics [] false [m2w]).propagated = false
      ∧ (update_metrics [] false [m2w]).calls.filter isCommitCall = [] := by
  exact ⟨rfl, rfl⟩

/-- Claim C2, amended: when the date-column read fails, the reconciliation
aborts early with the error caught and logged - the method returns normally
without raising - and no update or append write call is issued; the sheet is
left exactly as the setup phase produced it. -/
theorem C2_read_failure_aborts_silently (s0 : Sheet)
    (ms : List GarminMetrics) :
    (update_metrics s0 false ms).propagated = false
      ∧ (update_metrics s0 false ms).calls.filter isCommitCall = []
      ∧ (update_metrics s0 false ms).sheet = (setup_sheet s0).1 := by
  rw [update_metrics_fail]
  exact ⟨rfl, (setup_calls_no_commit s0 isCommitCall rfl).2, rfl⟩

/-- Claim C3: for records with pairwise-distinct date strings (the data-model
invariant of the spec), a record whose date string is in the index overwrites
exactly its indexed row in place, the final row count is the setup row count
plus only the appended-new-date rows, no appended row carries that record's
date, and the rows the reconciler touched have pairwise-distinct column-A
keys - at most one touched row per date value. -/
theorem C3_update_in_place (s0 : Sheet) (ms : List GarminMetrics)
    (m : GarminMetrics) (r : Nat)
    (hO : ∀ x ∈ ms, isDateObj x.date = true)
    (hN : (ms.map metricDateStr).Nodup)
    (hm : m ∈ ms)
    (hr : dateToRow (setup_sheet s0).1 (metricDateStr m) = some r) :
    (update_metrics s0 true ms).sheet.length
        = (setup_sheet s0).1.length
          + (buildBatches (setup_sheet s0).1 ms).2.length
      ∧ (∀ row ∈ (buildBatches (setup_sheet s0).1 ms).2,
          colAKey row ≠ some (metricDateStr m))
      ∧ r - 1 < (setup_sheet s0).1.length
      ∧ (update_metrics s0 true ms).sheet.getD (r - 1) []
          = serializeRow m
            ++ (((setup_sheet s0).1.getD (r - 1) []).drop
                  (serializeRow m).length)
      ∧ (((buildBatches (setup_sheet s0).1 ms).1.map (fun p => p.2)
            ++ (buildBatches (setup_sheet s0).1 ms).2).map colAKey).Nodup := by
  have hsheet : (update_metrics s0 true ms).sheet
      = applyUpdates (setup_sheet s0).1 (buildBatches (setup_sheet s0).1 ms).1
        ++ (buildBatches (setup_sheet s0).1 ms).2 := by
    rw [update_metrics_ok]
  have hfound := found_row_update (setup_sheet s0).1 ms m r hN hm hr
  refine ⟨?_, ?_, hfound.1, ?_, ?_⟩
  · rw [hsheet, List.length_append, applyUpdates_length]
  · intro row hrow hkey
    have hnone := appends_key_not_found (setup_sheet s0).1 ms hO row hrow _ hkey
    rw [hr] at hnone
    exact Option.noConfusion hnone
  · rw [hsheet]
    rw [getD_append_left _ _ _ _ (by rw [applyUpdates_length]; exact hfound.1)]
    exact hfound.2
  · exact touched_keys_nodup (setup_sheet s0).1 ms hO hN

/-- Witness for C3: a concrete sheet holding 2024-01-01 in row 2 and a record
list containing a record for that date (updated in place) and one for
2024-01-02 (appended). -/
theorem C3_witness :
    (update_metrics s0w true [m1w, m2w]).sheet.length
        = (setup_sheet s0w).1.length
          + (buildBatches (setup_sheet s0w).1 [m1w, m2w]).2.length
      ∧ (∀ row ∈ (buildBatches (setup_sheet s0w).1 [m1w, m2w]).2,
          colAKey row ≠ some (metricDateStr m1w))
      ∧ 2 - 1 < (setup_sheet s0w).1.length
      ∧ (update_metrics s0w true [m1w, m2w]).sheet.getD (2 - 1) []
          = serializeRow m1w
            ++ (((setup_sheet s0w).1.getD (2 - 1) []).drop
                  (serializeRow m1w).length)
      ∧ (((buildBatches (setup_sheet s0w).1 [m1w, m2w]).1.map (fun p => p.2)
            ++ (buildBatches (setup_sheet s0w).1 [m1w, m2w]).2).map
              colAKey).Nodup :=
  C3_update_in_place s0w [m1w, m2w] m1w 2 (by decide) (by decide) (by decide)
    (by decide)

/-- Claim C4: reconciliation is idempotent - for records with pairwise
distinct date-object dates, running update_metrics twice against the same
destination sheet leaves the sheet exactly as after the first run: the second
run resolves every record to an in-place update of the row the first run
wrote. -/
theorem C4_reconciliation_idempotent (s0 : Sheet) (ms : List GarminMetrics)
    (hO : ∀ x ∈ ms, isDateObj x.date = true)
    (hN : (ms.map metricDateStr).Nodup) :
    (update_metrics (update_metrics s0 true ms).sheet true ms).sheet
      = (update_metrics s0 true ms).sheet := by
  have hsheet : (update_metrics s0 true ms).sheet
      = applyUpdates (setup_sheet s0).1 (buildBatches (setup_sheet s0).1 ms).1
        ++ (buildBatches (setup_sheet s0).1 ms).2 := by
    rw [update_metrics_ok]
  rw [hsheet]
  exact reconcile_idem (setup_sheet s0).1 ms hO hN (setup_sheet_ne_nil s0)
    (setup_sheet_key0 s0)

/-- Witness for C4: idempotence at a concrete sheet and record list. -/
theorem C4_witness :
    (update_metrics (update_metrics s0w true [m1w, m2w]).sheet true
        [m1w, m2w]).sheet
      = (update_metrics s0w true [m1w, m2w]).sheet :=
  C4_reconciliation_idempotent s0w [m1w, m2w] (by decide) (by decide)

/-- Claim C5, counterexample: a record whose date field holds the plain
string x serializes the date cell as that very string, which is not the
ISO-8601 rendering of any date - line 91 of sheets_client.py only converts
date objects, so the serialized date cell is NOT always an ISO-8601 date
string. -/
theorem C5_counterexample :
    serializeCell mStrDate ("Day/Date") = PyVal.pstr ("x")
      ∧ ¬ ∃ d : PyDate,
          serializeCell mStrDate ("Day/Date") = PyVal.pstr (isoformat d) := by
  refine ⟨rfl, ?_⟩
  rintro ⟨d, hd⟩
  have h1 : PyVal.pstr ("x") = PyVal.pstr (isoformat d) := by
    rw [← hd]
    rfl
  have hx : ("x" : String) = isoformat d := by injection h1
  have hlen := congrArg String.length hx
  rw [isoformat_length] at hlen
  exact absurd hlen (by decide)

/-- Claim C5, amended: for every record and header, serialization yields an
empty cell for a header absent from the mapping; for a mapped non-date
attribute, an empty cell when the field is None, the value rounded to two
decimal places when it is a float, and the value unchanged for ints and
strings; the date cell is the ISO-8601 string of the date when the date field
is a date object, and the unchanged string when it is a plain string. -/
theorem C5_serialization (m : GarminMetrics) (h : String) :
    (mapGet HEADER_TO_ATTRIBUTE_MAP h = none →
        serializeCell m h = PyVal.pstr "")
    ∧ (∀ a, mapGet HEADER_TO_ATTRIBUTE_MAP h = some a → a ≠ ("date") →
        ((getattrPy m a = PyVal.pnone → serializeCell m h = PyVal.pstr "")
         ∧ (∀ q, getattrPy m a = PyVal.pfloat q →
             serializeCell m h = PyVal.pfloat (round2 q))
         ∧ (∀ n, getattrPy m a = PyVal.pint n →
             serializeCell m h = PyVal.pint n)
         ∧ (∀ s, getattrPy m a = PyVal.pstr s →
             serializeCell m h = PyVal.pstr s)))
    ∧ (∀ d, m.date = DateRep.obj d →
        serializeCell m ("Day/Date") = PyVal.pstr (isoformat d))
    ∧ (∀ s, m.date = DateRep.strRep s →
        serializeCell m ("Day/Date") = PyVal.pstr s) := by
  refine ⟨?_, ?_, ?_, ?_⟩
  · intro hnone
    simp [serializeCell, hnone]
  · intro a ha had
    refine ⟨?_, ?_, ?_, ?_⟩
    · intro hval
      simp [serializeCell, ha, had, hval]
    · intro q hval
      simp [serializeCell, ha, had, hval]
    · intro n hval
      simp [serializeCell, ha, had, hval]
    · intro s hval
      simp [serializeCell, ha, had, hval]
  · intro d hd
    have hmap : mapGet HEADER_TO_ATTRIBUTE_MAP ("Day/Date")
        = some ("date") := rfl
    simp [serializeCell, hmap, metricDateStr, hd]
  · intro s hs
    have hmap : mapGet HEADER_TO_ATTRIBUTE_MAP ("Day/Date")
        = some ("date") := rfl
    simp [serializeCell, hmap, metricDateStr, hs]

/-- Witness for C5: the amended serialization rules exercised on concrete
records - a None field gives an empty cell, 72.456 rounds to 72.46, a string
field passes through, the date-object date gives the ISO string, and an
unmapped header gives an empty cell. -/
theorem C5_witness :
    serializeCell m1w ("Sleep Score") = PyVal.pstr ""
      ∧ serializeCell mFloatW ("Sleep Score")
          = PyVal.pfloat ((3623 : Rat) / 50)
      ∧ serializeCell m1w ("Training Status") = PyVal.pstr ("Productive")
      ∧ serializeCell m1w ("Day/Date") = PyVal.pstr (isoformat ⟨2024, 1, 1⟩)
      ∧ serializeCell m1w ("No Such Header") = PyVal.pstr "" := by
  refine ⟨?_, ?_, ?_, ?_, ?_⟩
  · exact ((C5_serialization m1w ("Sleep Score")).2.1 ("sleep_score") rfl
      (by decide)).1 rfl
  · have hq : round2 ((72456 : Rat) / 1000) = (3623 : Rat) / 50 := by
      norm_num [round2, roundHalfEven]
    have hc := (((C5_serialization mFloatW ("Sleep Score")).2.1
      ("sleep_score") rfl (by decide)).2.1) ((72456 : Rat) / 1000) rfl
    rw [hc, hq]
  · exact (((C5_serialization m1w ("Training Status")).2.1
      ("training_status") rfl (by decide)).2.2.2) ("Productive") rfl
  · exact (C5_serialization m1w ("Day/Date")).2.2.1 ⟨2024, 1, 1⟩ rfl
  · exact (C5_serialization m1w ("No Such Header")).1 rfl

/-- Claim C6: the commit phase issues at most one batched update call and at
most one append call; any batched update call carries exactly the queued
updates with their row numbers, any append call carries exactly the queued
new rows in processing order, and when both queues are empty no commit write
call is issued at all (the setup phase may independently have written the
header row, which is neither an update nor an append of the commit). -/
theorem C6_single_batched_commit (s0 : Sheet) (ms : List GarminMetrics) :
    ((update_metrics s0 true ms).calls.countP isBatchUpdateCall ≤ 1)
    ∧ ((update_metrics s0 true ms).calls.countP isAppendCall ≤ 1)
    ∧ (∀ data, WriteCall.batchUpdate data ∈ (update_metrics s0 true ms).calls →
        data = (buildBatches (setup_sheet s0).1 ms).1)
    ∧ (∀ vals, WriteCall.appendRows vals ∈ (update_metrics s0 true ms).calls →
        vals = (buildBatches (setup_sheet s0).1 ms).2)
    ∧ ((buildBatches (setup_sheet s0).1 ms).1 = [] →
        (buildBatches (setup_sheet s0).1 ms).2 = [] →
        (update_metrics s0 true ms).calls.filter isCommitCall = []) := by
  have hcalls : (update_metrics s0 true ms).calls
      = (setup_sheet s0).2
        ++ commitCalls (buildBatches (setup_sheet s0).1 ms).1
            (buildBatches (setup_sheet s0).1 ms).2 := by
    rw [update_metrics_ok]
  refine ⟨?_, ?_, ?_, ?_, ?_⟩
  · rw [hcalls, List.countP_append,
      (setup_calls_no_commit s0 isBatchUpdateCall rfl).1]
    simpa using commitCalls_count_batch _ _
  · rw [hcalls, List.countP_append,
      (setup_calls_no_commit s0 isAppendCall rfl).1]
    simpa using commitCalls_count_append _ _
  · intro data hmem
    rw [hcalls] at hmem
    rcases List.mem_append.mp hmem with h1 | h1
    · rcases setup_sheet_calls s0 with h | h <;> rw [h] at h1
      · exact absurd h1 (by simp)
      · have := List.mem_singleton.mp h1
        exact WriteCall.noConfusion this
    · exact commitCalls_mem_batch h1
  · intro vals hmem
    rw [hcalls] at hmem
    rcases List.mem_append.mp hmem with h1 | h1
    · rcases setup_sheet_calls s0 with h | h <;> rw [h] at h1
      · exact absurd h1 (by simp)
      · have := List.mem_singleton.mp h1
        exact WriteCall.noConfusion this
    · exact commitCalls_mem_append h1
  · intro hU hA
    rw [hcalls, List.filter_append, commitCalls_nil hU hA,
      (setup_calls_no_commit s0 isCommitCall rfl).2]
    rfl

/-- Witness for C6: at a sheet with one indexed date and a record list with
one matching and one new record, the batched update call carries exactly the
one queued update and the append call exactly the one new row; with an empty
record list against a nonempty sheet, no commit call is issued. -/
theorem C6_witness :
    ((update_metrics s0w true [m1w, m2w]).calls.countP isBatchUpdateCall ≤ 1)
    ∧ [(2, serializeRow m1w)] = (buildBatches (setup_sheet s0w).1 [m1w, m2w]).1
    ∧ [serializeRow m2w] = (buildBatches (setup_sheet s0w).1 [m1w, m2w]).2
    ∧ (update_metrics [[PyVal.pstr ("x")]] true []).calls.filter isCommitCall
        = [] := by
  refine ⟨(C6_single_batched_commit s0w [m1w, m2w]).1, ?_, ?_, ?_⟩
  · exact (C6_single_batched_commit s0w [m1w, m2w]).2.2.1
      [(2, serializeRow m1w)] (by decide)
  · exact (C6_single_batched_commit s0w [m1w, m2w]).2.2.2.1
      [serializeRow m2w] (by decide)
  · exact (C6_single_batched_commit [[PyVal.pstr ("x")]] []).2.2.2.2
      (by decide) (by decide)

/-- Claim C7: for records with pairwise-distinct date-object dates reconciled
against an empty destination sheet, the final sheet is exactly the header row
followed by one serialized row per record, in processing order. -/
theorem C7_empty_sheet_header_then_rows (ms : List GarminMetrics)
    (hO : ∀ m ∈ ms, isDateObj m.date = true)
    (hN : (ms.map metricDateStr).Nodup) :
    (update_metrics [] true ms).sheet = HEADER_ROW :: ms.map serializeRow := by
  have hsetup : setup_sheet ([] : Sheet)
      = ([HEADER_ROW], [WriteCall.writeHeader]) := rfl
  have hsheet : (update_metrics [] true ms).sheet
      = applyUpdates [HEADER_ROW] (buildBatches [HEADER_ROW] ms).1
        ++ (buildBatches [HEADER_ROW] ms).2 := by
    rw [update_metrics_ok, hsetup]
  rw [hsheet]
  have hU : (buildBatches [HEADER_ROW] ms).1 = [] := by
    rw [buildBatches_eq]
    apply filterMap_eq_nil_of
    intro m hm
    unfold foundEntry
    rw [dateToRow_header_only _ (metricDateStr_ne_header m (hO m hm))]
    rfl
  have hA : (buildBatches [HEADER_ROW] ms).2 = ms.map serializeRow := by
    rw [buildBatches_eq]
    show (ms.filter _).map serializeRow = ms.map serializeRow
    rw [filter_eq_self_of]
    intro m hm
    rw [dateToRow_header_only _ (metricDateStr_ne_header m (hO m hm))]
    rfl
  rw [hU, hA]
  rfl

/-- Witness for C7: two records against the empty sheet yield exactly the
header row plus their two serialized rows. -/
theorem C7_witness :
    (update_metrics [] true [m1w, m2w]).sheet
      = HEADER_ROW :: [m1w, m2w].map serializeRow :=
  C7_empty_sheet_header_then_rows [m1w, m2w] (by decide) (by decide)

/-- Claim C8: with start not after stop and every per-date fetch succeeding,
the orchestrator collects exactly one record per calendar day ordinal from
start to stop inclusive, in strictly increasing order, and hands the complete
list to exactly one sink invocation; and whenever the fetch loop is
interrupted by an error, the error propagates and no sink is invoked at
all. -/
theorem C8_sequential_fetch_single_sink
    (fetch : Int → Except Unit GarminMetrics) (rec : Int → GarminMetrics)
    (start stop : Int) (ot : OutputType)
    (hle : start ≤ stop)
    (hok : ∀ d, start ≤ d → d ≤ stop → fetch d = Except.ok (rec d)) :
    collectMetrics fetch start stop
        = Except.ok ((dateRange start stop).map rec)
    ∧ (dateRange start stop).Pairwise (· < ·)
    ∧ (∀ d, d ∈ dateRange start stop ↔ start ≤ d ∧ d ≤ stop)
    ∧ sync fetch start stop ot
        = Except.ok [⟨ot, (dateRange start stop).map rec⟩]
    ∧ (∀ (fetch2 : Int → Except Unit GarminMetrics) (e : Unit),
        collectMetrics fetch2 start stop = Except.error e →
        sync fetch2 start stop ot = Except.error e) := by
  have hcol := collectMetrics_ok fetch rec start stop hle hok
  refine ⟨hcol, dateRange_sorted start stop,
    fun d => dateRange_mem start stop hle d, ?_, ?_⟩
  · unfold sync
    rw [hcol]
    have hne : (dateRange start stop).map rec ≠ [] := by
      intro hnil
      rcases List.map_eq_nil_iff.mp hnil with h
      exact dateRange_ne_nil start stop hle h
    show (if (dateRange start stop).map rec = [] then Except.ok []
        else Except.ok [SinkCall.mk ot ((dateRange start stop).map rec)])
      = Except.ok [SinkCall.mk ot ((dateRange start stop).map rec)]
    rw [if_neg hne]
  · intro fetch2 e herr
    unfold sync
    rw [herr]

/-- Witness for C8: fetching days 0 to 2 with an always-succeeding fetch
collects three records and invokes the sink once with all of them; an
always-failing fetch propagates the error and yields no sink call. -/
theorem C8_witness :
    collectMetrics fetchW 0 2 = Except.ok ((dateRange 0 2).map recW)
    ∧ sync fetchW 0 2 OutputType.sheets
        = Except.ok [⟨OutputType.sheets, (dateRange 0 2).map recW⟩]
    ∧ sync fetchFailW 0 2 OutputType.sheets = Except.error () := by
  have h := C8_sequential_fetch_single_sink fetchW recW 0 2 OutputType.sheets
    (by omega) (fun d _ _ => rfl)
  exact ⟨h.1, h.2.2.2.1, h.2.2.2.2 fetchFailW () rfl⟩

/-- Claim C9: the file sink writes the header row followed by one row per
record when the target file is empty or nonexistent; when the file already
has content it appends the rows without repeating the header, so re-running
for overlapping records duplicates their rows (a record present in both runs
occurs at least twice in the final file). -/
theorem C9_csv_sink_append (file : List (List PyVal))
    (ms ms2 : List GarminMetrics) :
    (csv_sink [] ms = CSV_HEADER_ROW :: ms.map write_csv_row)
    ∧ (file ≠ [] → csv_sink file ms = file ++ ms.map write_csv_row)
    ∧ (csv_sink (csv_sink [] ms) ms2
        = (CSV_HEADER_ROW :: ms.map write_csv_row) ++ ms2.map write_csv_row)
    ∧ (∀ m, m ∈ ms → m ∈ ms2 →
        2 ≤ (csv_sink (csv_sink [] ms) ms2).count (write_csv_row m)) := by
  have h1 : csv_sink [] ms = CSV_HEADER_ROW :: ms.map write_csv_row := by
    unfold csv_sink
    rw [if_pos rfl]
    rfl
  have h2 : ∀ f : List (List PyVal), f ≠ [] →
      csv_sink f ms2 = f ++ ms2.map write_csv_row := by
    intro f hf
    unfold csv_sink
    rw [if_neg hf]
  have h3 : csv_sink (csv_sink [] ms) ms2
      = (CSV_HEADER_ROW :: ms.map write_csv_row) ++ ms2.map write_csv_row := by
    rw [h1]
    exact h2 _ (by simp)
  refine ⟨h1, ?_, h3, ?_⟩
  · intro hf
    unfold csv_sink
    rw [if_neg hf]
  · intro m hm1 hm2
    rw [h3]
    have hc1 : 0 < (ms.map write_csv_row).count (write_csv_row m) :=
      List.count_pos_iff.mpr (List.mem_map_of_mem _ hm1)
    have hc2 : 0 < (ms2.map write_csv_row).count (write_csv_row m) :=
      List.count_pos_iff.mpr (List.mem_map_of_mem _ hm2)
    have happ : (ms.map write_csv_row ++ ms2.map write_csv_row).count
          (write_csv_row m)
        = (ms.map write_csv_row).count (write_csv_row m)
          + (ms2.map write_csv_row).count (write_csv_row m) :=
      List.count_append _ _ _
    have hsub : List.Sublist
        (ms.map write_csv_row ++ ms2.map write_csv_row)
        (CSV_HEADER_ROW :: (ms.map write_csv_row ++ ms2.map write_csv_row)) :=
      List.sublist_cons_self _ _
    have hle2 := hsub.count_le (write_csv_row m)
    calc 2 ≤ (ms.map write_csv_row).count (write_csv_row m)
          + (ms2.map write_csv_row).count (write_csv_row m) := by omega
      _ = (ms.map write_csv_row ++ ms2.map write_csv_row).count
            (write_csv_row m) := happ.symm
      _ ≤ (CSV_HEADER_ROW
            :: (ms.map write_csv_row ++ ms2.map write_csv_row)).count
            (write_csv_row m) := hle2

/-- Witness for C9: appending one record to a nonexistent file writes header
plus row; re-running with the same record duplicates its row. -/
theorem C9_witness :
    csv_sink [[PyVal.pstr ("x")]] [m1w]
        = [[PyVal.pstr ("x")]] ++ [m1w].map write_csv_row
    ∧ 2 ≤ (csv_sink (csv_sink [] [m1w]) [m1w]).count (write_csv_row m1w) :=
  ⟨(C9_csv_sink_append [[PyVal.pstr ("x")]] [m1w] [m1w]).2.1 (by decide),
   (C9_csv_sink_append [] [m1w] [m1w]).2.2.2 m1w (by decide) (by decide)⟩

/-- Claim C10: a CLI invocation whose parsed start date is strictly after the
end date runs the fetch loop zero times - regardless of the fetch function -
collects no records, issues no sink call, and returns without error; the
interactive-mode end-date prompt is the only place the inverted range is
rejected. -/
theorem C10_inverted_range_no_sink
    (fetch : Int → Except Unit GarminMetrics) (start stop : Int)
    (ot : OutputType) (h : stop < start) :
    collectMetrics fetch start stop = Except.ok []
    ∧ cli_sync fetch start stop ot = Except.ok []
    ∧ interactiveAcceptsEndDate start stop = false := by
  have hn : (stop + 1 - start).toNat = 0 := by omega
  have hcol : collectMetrics fetch start stop = Except.ok [] := by
    unfold collectMetrics
    rw [hn]
    rfl
  refine ⟨hcol, ?_, ?_⟩
  · unfold cli_sync sync
    rw [hcol]
    rfl
  · simp only [interactiveAcceptsEndDate, decide_eq_false_iff_not]
    omega

/-- Witness for C10: start day 5, end day 3 - no records, no sink call, no
error; the interactive prompt would have rejected this range. -/
theorem C10_witness :
    collectMetrics fetchW 5 3 = Except.ok []
    ∧ cli_sync fetchW 5 3 OutputType.csv = Except.ok []
    ∧ interactiveAcceptsEndDate 5 3 = false :=
  C10_inverted_range_no_sink fetchW 5 3 OutputType.csv (by omega)
